import Mathlib

/-!
Verification development for the payman-mcp documentation server
(`src/index.ts`).  Strings are modelled as `List Char`; JavaScript
`toLowerCase` is modelled by `Char.toLower` (the documents and queries
involved are ASCII).  Timestamps are in milliseconds, as produced by
`Date.now()`; `CACHE_TTL = 3600000` ms = 3600 s.
-/

set_option maxRecDepth 8000

/-! Definitions: the shallow embedding of the data model and operations. -/

/-- Lowercasing of a string, modelling JavaScript `toLowerCase` on ASCII. -/
def lower (s : List Char) : List Char := s.map Char.toLower

/-- First index at which `pat` occurs in the list, modelling JavaScript
`String.indexOf` (which returns `-1`, here `none`, when absent;
the empty pattern occurs at index 0). -/
def idxOf? (pat : List Char) : List Char → Option Nat
  | [] => if pat.isPrefixOf [] then some 0 else none
  | c :: rest =>
    if pat.isPrefixOf (c :: rest) then some 0
    else (idxOf? pat rest).map (· + 1)

/-- Substring test, modelling JavaScript `String.includes`. -/
def containsSub (hay pat : List Char) : Bool := (idxOf? pat hay).isSome

/-- Case-insensitive substring test: both sides lowercased, as in
`hay.toLowerCase().includes(pat.toLowerCase())`. -/
def containsCI (hay pat : List Char) : Bool := containsSub (lower hay) (lower pat)

/-- A cache entry: `{ content, timestamp }` with timestamp in milliseconds. -/
structure CacheEntry where
  content : List Char
  timestamp : Nat
deriving DecidableEq

/-- The `documentCache` map, modelled as an association list; `cacheSet`
prepends, and `cacheGet` takes the first (most recent) binding, giving
overwrite semantics. -/
def Cache := List (List Char × CacheEntry)

instance : DecidableEq Cache := by unfold Cache; infer_instance

def cacheGet (c : Cache) (p : List Char) : Option CacheEntry :=
  (List.find? (fun e => e.1 == p) c).map (·.2)

def cacheSet (c : Cache) (p : List Char) (e : CacheEntry) : Cache := (p, e) :: c

/-- The constant `CACHE_TTL = 3600000` milliseconds (= 3600 seconds). -/
def CACHE_TTL : Nat := 3600000

/-- Outcome of the remote `fetch` of `https://docs.paymanai.com<path>.md`:
either an HTTP response (status and body) or a network-level failure with
its error message. -/
inductive RemoteResult where
  | response (status : Nat) (body : List Char)
  | networkError (msg : List Char)
deriving DecidableEq

/-- The test `response.ok`: status in the 2xx range. -/
def statusOk (s : Nat) : Bool := decide (200 ≤ s) && decide (s ≤ 299)

/-- Message of the error thrown on a non-ok response:
`Failed to fetch: ${response.status}`. -/
def httpErrMsg (s : Nat) : List Char :=
  ("Failed to fetch: ".data) ++ (Nat.repr s).data

/-- The placeholder returned by the catch branch:
`Documentation content not available for path: ${path}.md\nError: ${msg}`. -/
def placeholderText (path msg : List Char) : List Char :=
  ("Documentation content not available for path: ".data) ++ path ++
    (".md\nError: ".data) ++ msg

/-- Freshness test performed by `fetchDocMarkdown`:
`cachedDoc && now - cachedDoc.timestamp < CACHE_TTL`. -/
def cacheFresh (c : Cache) (now : Nat) (p : List Char) : Bool :=
  match cacheGet c p with
  | some e => decide (now - e.timestamp < CACHE_TTL)
  | none => false

/-- The function `fetchDocMarkdown` (lines 18–47): returns the resulting text, the updated
cache, and whether a remote fetch was issued. -/
def fetchDocMarkdown (c : Cache) (now : Nat) (r : RemoteResult)
    (p : List Char) : List Char × Cache × Bool :=
  match cacheGet c p with
  | some e =>
    if now - e.timestamp < CACHE_TTL then (e.content, c, false)
    else fetchRemote c now r p
  | none => fetchRemote c now r p
where
  fetchRemote (c : Cache) (now : Nat) (r : RemoteResult) (p : List Char) :
      List Char × Cache × Bool :=
    match r with
    | .response s b =>
      if statusOk s then (b, cacheSet c p ⟨b, now⟩, true)
      else (placeholderText p (httpErrMsg s), c, true)
    | .networkError m => (placeholderText p m, c, true)

/-- The twelve documentation topics, in source order. -/
def docTopics : List (List Char) :=
  ["quickstart".data, "playground".data, "setup-and-installation".data,
   "create-payees".data, "send-payments".data, "create-payee".data,
   "search-payees".data, "check-balances".data, "bill-payment-agent".data,
   "api-reference".data, "api-keys".data, "error-handling".data]

/-- The table `pathMap`, as an association list in source (= registry) order. -/
def pathMapList : List (List Char × List Char) :=
  [("quickstart".data, "/overview/quickstart".data),
   ("playground".data, "/overview/playground".data),
   ("setup-and-installation".data, "/sdks/setup-and-installation".data),
   ("create-payees".data, "/sdks/create-payees".data),
   ("send-payments".data, "/sdks/send-payments".data),
   ("create-payee".data, "/sdks/create-payee".data),
   ("search-payees".data, "/sdks/search-payees".data),
   ("check-balances".data, "/sdks/check-balances".data),
   ("bill-payment-agent".data, "/guides/bill-payment-agent".data),
   ("api-reference".data, "/api-reference/introduction".data),
   ("api-keys".data, "/api-reference/get-api-key".data),
   ("error-handling".data, "/api-reference/error-handling".data)]

def pathOfTopic (t : List Char) : Option (List Char) :=
  (List.find? (fun e => e.1 == t) pathMapList).map (·.2)

/-- Display metadata of a topic: title and related topics. -/
structure TopicMeta where
  title : List Char
  relatedTopics : List (List Char)
deriving DecidableEq

/-- The table `topicMetadata`, as an association list in source order. -/
def topicMetadataList : List (List Char × TopicMeta) :=
  [("quickstart".data,
      ⟨"Quickstart Guide".data, ["setup-and-installation".data, "api-keys".data]⟩),
   ("playground".data,
      ⟨"API Playground".data, ["api-reference".data, "api-keys".data]⟩),
   ("setup-and-installation".data,
      ⟨"Setup and Installation".data, ["api-keys".data, "quickstart".data]⟩),
   ("create-payees".data,
      ⟨"Create Payees".data, ["create-payee".data, "search-payees".data]⟩),
   ("send-payments".data,
      ⟨"Send Payments".data, ["check-balances".data, "create-payees".data]⟩),
   ("create-payee".data,
      ⟨"Create Payee".data, ["create-payees".data, "search-payees".data]⟩),
   ("search-payees".data,
      ⟨"Search Payees".data, ["create-payee".data, "create-payees".data]⟩),
   ("check-balances".data,
      ⟨"Check Balances".data, ["send-payments".data]⟩),
   ("bill-payment-agent".data,
      ⟨"Bill Payment Agent".data, ["send-payments".data]⟩),
   ("api-reference".data,
      ⟨"API Reference".data, ["error-handling".data, "api-keys".data]⟩),
   ("api-keys".data,
      ⟨"API Keys".data, ["api-reference".data, "setup-and-installation".data]⟩),
   ("error-handling".data,
      ⟨"Error Handling".data, ["api-reference".data]⟩)]

def metaOfTopic (t : List Char) : Option TopicMeta :=
  (List.find? (fun e => e.1 == t) topicMetadataList).map (·.2)

def titleOfTopic (t : List Char) : List Char :=
  ((metaOfTopic t).getD ⟨[], []⟩).title

/-- A category of the fixed `problemCategories` table. -/
structure ProblemCategory where
  category : List Char
  keywords : List (List Char)
  topics : List (List Char)
deriving DecidableEq

def problemCategories : List ProblemCategory :=
  [⟨"Authentication".data,
    ["api key".data, "auth".data, "authentication".data, "unauthorized".data,
     "401".data],
    ["api-keys".data, "error-handling".data]⟩,
   ⟨"Payments".data,
    ["payment".data, "send payment".data, "transaction".data,
     "failed payment".data],
    ["send-payments".data, "error-handling".data]⟩,
   ⟨"Payees".data,
    ["payee".data, "recipient".data, "create payee".data, "add payee".data],
    ["create-payee".data, "create-payees".data]⟩,
   ⟨"Setup".data,
    ["install".data, "setup".data, "configuration".data, "sdk".data,
     "initialize".data],
    ["setup-and-installation".data, "quickstart".data]⟩,
   ⟨"Error Handling".data,
    ["error".data, "exception".data, "crash".data, "failed".data],
    ["error-handling".data, "api-reference".data]⟩]

/-- Categories whose some keyword occurs in the lowercased problem text
(`problemLower.includes(keyword)`). -/
def matchingCategories (problem : List Char) : List ProblemCategory :=
  problemCategories.filter
    (fun cat => cat.keywords.any (fun k => containsSub (lower problem) k))

def defaultConsultTopics : List (List Char) :=
  ["error-handling".data, "api-reference".data, "quickstart".data]

/-- First-seen deduplication, modelling `[...new Set(xs)]`. -/
def dedupFirstAux (seen : List (List Char)) :
    List (List Char) → List (List Char)
  | [] => []
  | x :: xs =>
    if x ∈ seen then dedupFirstAux seen xs
    else x :: dedupFirstAux (x :: seen) xs

def dedupFirst (xs : List (List Char)) : List (List Char) := dedupFirstAux [] xs

/-- The list `uniqueTopics` of `solve-problem`: the union, in first-seen order and
without duplicates, of the topics of all matching categories — or the fixed
default set when no category matches. -/
def consultedTopics (problem : List Char) : List (List Char) :=
  dedupFirst
    (if matchingCategories problem = [] then defaultConsultTopics
     else (matchingCategories problem).flatMap (·.topics))

/-- Split on `'\n'`, modelling JavaScript `String.split("\n")`. -/
def splitLines : List Char → List (List Char)
  | [] => [[]]
  | c :: rest =>
    if c = '\n' then [] :: splitLines rest
    else
      match splitLines rest with
      | [] => [[c]]
      | h :: t => (c :: h) :: t

/-- Join with `'\n'`, modelling `Array.join("\n")`. -/
def joinNl : List (List Char) → List Char
  | [] => []
  | [l] => l
  | l :: ls => l ++ '\n' :: joinNl ls

/-- JavaScript `\s` on the ASCII range (space, tab, newline, carriage
return, vertical tab, form feed). -/
def isJsWs (c : Char) : Bool :=
  c = ' ' || c = '\t' || c = '\n' || c = '\r' ||
    c = Char.ofNat 11 || c = Char.ofNat 12

/-- Line terminators recognised by a multiline `^` (ASCII range). -/
def isLineTerm (c : Char) : Bool := c = '\n' || c = '\r'

/-- Scanner for `content.split(/^#+\s+/m)`: at each line start, a run of
one or more `#` followed by a run of one or more whitespace characters is a
delimiter; the text between delimiters is collected.  `fuel` bounds the
recursion (each step consumes at least one character). -/
def sectionsAux : Nat → Bool → List Char → List Char → List (List Char)
  | 0, _, acc, rest => [acc.reverse ++ rest]
  | _ + 1, _, acc, [] => [acc.reverse]
  | fuel + 1, atLS, acc, c :: rest =>
    if atLS && (c == '#') then
      let hashes := (c :: rest).takeWhile (· == '#')
      let afterHash := (c :: rest).drop hashes.length
      let ws := afterHash.takeWhile isJsWs
      if ws.isEmpty then sectionsAux fuel (isLineTerm c) (c :: acc) rest
      else
        acc.reverse ::
          sectionsAux fuel (isLineTerm (ws.getLastD ' ')) []
            (afterHash.drop ws.length)
    else sectionsAux fuel (isLineTerm c) (c :: acc) rest

def splitSections (content : List Char) : List (List Char) :=
  sectionsAux (content.length + 1) true [] content

/-- Collapse every run of newlines into a single space, modelling
`.replace(/\n+/g, " ")`. -/
def collapseAux : Bool → List Char → List Char
  | _, [] => []
  | prevNl, c :: rest =>
    if c = '\n' then
      if prevNl then collapseAux true rest else ' ' :: collapseAux true rest
    else c :: collapseAux false rest

def collapseNewlines (cs : List Char) : List Char := collapseAux false cs

/-- The excerpt computed for the selected section body (lines 201–214):
window of 150 characters on each side of the first case-insensitive
occurrence of the query, clipped to the body, newlines collapsed, with
`"..."` on each clipped end.  When the query does not occur in the body
(it matched in the section's title line only), `index` is `-1` in the
source; then `start = 0` and `end = min(L, queryLength + 149)`. -/
def mkExcerpt (query body : List Char) : List Char :=
  let L := body.length
  let se : Nat × Nat :=
    match idxOf? (lower query) (lower body) with
    | some i => (i - 150, min L (i + (lower query).length + 150))
    | none => (0, min L ((lower query).length + 149))
  let mid := (body.drop se.1).take (se.2 - se.1)
  (if 0 < se.1 then "...".data else []) ++ collapseNewlines mid ++
    (if se.2 < L then "...".data else [])

/-- Per-document search (lines 186–230): if the lowercased content contains
the lowercased query, select the first section containing the query, and
return its title line and the excerpt (falling back to the first 200
characters of the document when the computed excerpt is empty). -/
def searchOne (query content : List Char) : Option (List Char × List Char) :=
  if containsCI content query then
    let best : List Char × List Char :=
      match (splitSections content).find? (fun s => containsCI s query) with
      | some s =>
        let lines := splitLines s
        (lines.headD [], mkExcerpt query (joinNl lines.tail))
      | none => ([], [])
    some (best.1,
      if best.2.isEmpty then content.take 200 ++ "...".data else best.2)
  else none

/-- An entry of `docsToSearch`. -/
structure DocEntry where
  topic : List Char
  path : List Char
  title : List Char
deriving DecidableEq

def docsToSearch : List DocEntry :=
  pathMapList.map (fun e => ⟨e.1, e.2, titleOfTopic e.1⟩)

/-- A search result, before formatting. -/
structure SearchResult where
  title : List Char
  topic : List Char
  sectionTitle : List Char
  excerpt : List Char
deriving DecidableEq

/-- The list `searchResults` of `search-documentation`, as a function of the resolved
document content of each path (`fetchF`). -/
def searchResults (fetchF : List Char → List Char) (query : List Char) :
    List SearchResult :=
  docsToSearch.filterMap (fun d =>
    (searchOne query (fetchF d.path)).map (fun r => ⟨d.title, d.topic, r.1, r.2⟩))

/-- One bullet of the "Related Topics" section. -/
def relatedLine (t : List Char) : List Char :=
  "- ".data ++ titleOfTopic t ++
    " (use get-documentation with topic \"".data ++ t ++ "\")".data

/-- The string `relatedTopicsText` of `get-documentation`. -/
def relatedTopicsText (m : TopicMeta) : List Char :=
  if 0 < m.relatedTopics.length then
    "\n\n## Related Topics\n\n".data ++ joinNl (m.relatedTopics.map relatedLine)
  else []

/-- The operation `get-documentation`: fetch the topic's document and append the related
topics section.  Returns the text, the updated cache and whether a remote
fetch was issued; `none` for a topic outside the enumerated set (rejected
by the argument schema before the operation body runs). -/
def getDocumentation (c : Cache) (now : Nat) (r : RemoteResult)
    (topic : List Char) : Option (List Char × Cache × Bool) :=
  match pathOfTopic topic, metaOfTopic topic with
  | some path, some m =>
    let res := fetchDocMarkdown c now r path
    some (res.1 ++ relatedTopicsText m, res.2.1, res.2.2)
  | _, _ => none

/-- The two SDK languages. -/
inductive Sdk where
  | nodejs
  | python
deriving DecidableEq

def sdkName : Sdk → List Char
  | .nodejs => "nodejs".data
  | .python => "python".data

/-- Language tags of the code-block regex alternation, in source order:
`javascript|typescript|js|nodejs|node` and `python|py`. -/
def tagsFor : Sdk → List (List Char)
  | .nodejs => ["javascript".data, "typescript".data, "js".data,
                "nodejs".data, "node".data]
  | .python => ["python".data, "py".data]

def fence : List Char := "```".data

/-- A match of the regex at the current position: the text starts with
```` ``` ```` followed by one of the tags (tried in alternation order), and
a closing ```` ``` ```` exists later; returns the captured group and the
text after the closing fence.  Since no tag contains a backtick, if the
first matching tag finds no closing fence no other alternative can. -/
def matchBlockAt (tags : List (List Char)) (cs : List Char) :
    Option (List Char × List Char) :=
  if fence.isPrefixOf cs then
    match tags.find? (fun t => t.isPrefixOf (cs.drop 3)) with
    | some t =>
      let rest := cs.drop (3 + t.length)
      match idxOf? fence rest with
      | some j => some (rest.take j, rest.drop (j + 3))
      | none => none
    | none => none
  else none

/-- Model of `content.matchAll(codeBlockRegex)`: scan left to right, emitting each
captured group and resuming after the closing fence.  `fuel` bounds the
recursion (each step consumes at least one character). -/
def extractBlocksAux (tags : List (List Char)) :
    Nat → List Char → List (List Char)
  | 0, _ => []
  | _ + 1, [] => []
  | fuel + 1, c :: rest =>
    match matchBlockAt tags (c :: rest) with
    | some (cap, rem) => cap :: extractBlocksAux tags fuel rem
    | none => extractBlocksAux tags fuel rest

def extractBlocks (tags : List (List Char)) (content : List Char) :
    List (List Char) :=
  extractBlocksAux tags (content.length + 1) content

/-- JavaScript `String.trim` (ASCII whitespace). -/
def trimWs (cs : List Char) : List Char :=
  ((cs.dropWhile isJsWs).reverse.dropWhile isJsWs).reverse

/-- The 300-character lookbehind window before the first occurrence of the
(trimmed) code block in the raw document:
`content.substring(Math.max(0, idx - 300), idx)` where
`idx = content.indexOf(code)` (empty when the code does not occur). -/
def lookbehind (content code : List Char) : List Char :=
  match idxOf? code content with
  | some k => (content.drop (k - 300)).take (k - (k - 300))
  | none => []

/-- The filter of lines 332–344: keep a block when it contains the feature
itself, or the 300 characters of raw text before it contain the feature
(both case-insensitively). -/
def blockRelevant (feature content code : List Char) : Bool :=
  containsCI code feature || containsCI (lookbehind content code) feature

/-- The list `relevantBlocks` for one document: extract all blocks tagged for the
language, trim each, and filter by `blockRelevant`. -/
def relevantBlocks (feature : List Char) (language : Sdk)
    (content : List Char) : List (List Char) :=
  ((extractBlocks (tagsFor language) content).map trimWs).filter
    (blockRelevant feature content)

/-- Candidate topics (lines 308–319): those whose identifier or title
contains the feature, falling back to all topics when none does. -/
def potentialTopics (feature : List Char) : List (List Char) :=
  let hits := (pathMapList.map (·.1)).filter
    (fun t => containsCI t feature || containsCI (titleOfTopic t) feature)
  if 0 < hits.length then hits else pathMapList.map (·.1)

/-- Per-topic result of `get-code-examples`. -/
structure CodeExamples where
  topic : List Char
  title : List Char
  examples : List (List Char)
deriving DecidableEq

/-- The operation `get-code-examples`, as a function of the resolved document content of
each path: for every candidate topic, the qualifying blocks of its
document; topics yielding none are dropped. -/
def getCodeExamples (fetchF : List Char → List Char) (feature : List Char)
    (language : Sdk) : List CodeExamples :=
  (potentialTopics feature).filterMap (fun t =>
    let content := fetchF ((pathOfTopic t).getD [])
    let blocks := relevantBlocks feature language content
    if 0 < blocks.length
    then some ⟨t, titleOfTopic t, blocks⟩
    else none)

/-- The concrete document of the C6 instance: one fenced block tagged
`python` and one tagged `javascript`. -/
def c6Doc : List Char :=
  ("# Check Balances\nUse the balance API.\n```python\nclient.get_balance()\n```\nMore:\n```javascript\nclient.getBalance()\n```\n").data

/-- The six SDK-usage topics scanned by `get-sdk-help`, in scan order. -/
def sdkTopics : List (List Char) :=
  ["setup-and-installation".data, "create-payees".data, "send-payments".data,
   "create-payee".data, "search-payees".data, "check-balances".data]

def sdkIdentifiers : Sdk → List (List Char)
  | .nodejs => ["node".data, "nodejs".data, "javascript".data, "js".data]
  | .python => ["python".data, "py".data]

/-- The relevance gate (lines 546–554): some identifier token and the
feature both occur in the lowercased content, with first occurrences less
than 500 characters apart (`includes` is occurrence of `idxOf?`, so the
two `includes` conjuncts are folded into the `some`/`some` match). -/
def sdkRelevant (sdk : Sdk) (feature content : List Char) : Bool :=
  (sdkIdentifiers sdk).any (fun tok =>
    match idxOf? tok (lower content), idxOf? (lower feature) (lower content) with
    | some a, some b => decide (max a b - min a b < 500)
    | _, _ => false)

/-- The test `line.startsWith("#")`. -/
def startsWithHash : List Char → Bool
  | '#' :: _ => true
  | _ => false

/-- The upward walk of lines 565–568: starting at the feature line, the
largest index at or below it whose line starts with `#`, or 0. -/
def headingIdxAux (ls : List (List Char)) : Nat → Nat
  | 0 => 0
  | k + 1 =>
    if startsWithHash (ls.getD (k + 1) []) then k + 1 else headingIdxAux ls k

/-- Index of the first content line containing the feature
(case-insensitive), lines 559–561. -/
def featureLineIdx (feature content : List Char) : Option Nat :=
  (splitLines content).findIdx? (fun line => containsCI line feature)

/-- The excerpt of lines 570–573: lines from the heading index through
`featureIndex + 20` (exclusive), joined with newlines. -/
def sdkExcerpt (content : List Char) (fi : Nat) : List Char :=
  joinNl (((splitLines content).drop
      (headingIdxAux (splitLines content) fi)).take
    (fi + 20 - headingIdxAux (splitLines content) fi))

/-- A `get-sdk-help` result. -/
structure SdkHelpResult where
  topic : List Char
  heading : List Char
  content : List Char
  relevance : Nat
deriving DecidableEq

/-- Per-topic processing of `get-sdk-help` (lines 538–587). -/
def sdkHelpOne (sdk : Sdk) (feature topic content : List Char) :
    Option SdkHelpResult :=
  if sdkRelevant sdk feature content then
    match featureLineIdx feature content with
    | some fi =>
      some ⟨topic,
        (splitLines content).getD (headingIdxAux (splitLines content) fi) [],
        sdkExcerpt content fi,
        (if containsSub (lower content) (sdkName sdk) then 2 else 1) +
          (if containsCI (sdkExcerpt content fi) feature then 3
           else 0)⟩
    | none => none
  else none

/-- Stable insertion for the descending sort: an element goes before the
first strictly smaller-scored one, after all earlier elements with greater
or equal score (ties keep original order, as JavaScript `sort` is
stable). -/
def insertDesc (x : SdkHelpResult) : List SdkHelpResult → List SdkHelpResult
  | [] => [x]
  | y :: ys =>
    if x.relevance < y.relevance then y :: insertDesc x ys else x :: y :: ys

/-- Model of `helpResults.sort((a, b) => b.relevance - a.relevance)`: the stable
descending sort. -/
def sortDesc : List SdkHelpResult → List SdkHelpResult
  | [] => []
  | x :: xs => insertDesc x (sortDesc xs)

/-- The unsorted per-topic results, in topic scan order. -/
def sdkHelpRaw (fetchF : List Char → List Char) (sdk : Sdk)
    (feature : List Char) : List SdkHelpResult :=
  sdkTopics.filterMap (fun t =>
    sdkHelpOne sdk feature t (fetchF ((pathOfTopic t).getD [])))

/-- The `get-sdk-help` results after sorting. -/
def sdkHelpResults (fetchF : List Char → List Char) (sdk : Sdk)
    (feature : List Char) : List SdkHelpResult :=
  sortDesc (sdkHelpRaw fetchF sdk feature)

/-- The document used by the C8 witness. -/
def c8Doc : List Char :=
  "# Setup\nInstall the nodejs SDK.\nUse Payman here.\n".data

/-- The document and fetch assignment used by the C9 and C10 witnesses. -/
def c9Doc : List Char := "# PyGuide\nUse the python client.\nPayman rules.\n".data

def c9Fetch : List Char → List Char :=
  fun p => if p = "/sdks/setup-and-installation".data then c9Doc else []

def c9Excerpt : List Char :=
  "# PyGuide\nUse the python client.\nPayman rules.\n".data

/-! Theorems. -/

/-- The function `idxOf?` finds an actual occurrence, and the first one: `pat` is a prefix
of `hay` dropped at the returned index, and at no earlier index. -/
theorem idxOf?_eq_some (pat hay : List Char) (i : Nat)
    (h : idxOf? pat hay = some i) :
    pat.isPrefixOf (hay.drop i) = true ∧
      ∀ j < i, pat.isPrefixOf (hay.drop j) = false := by
  induction hay generalizing i with
  | nil =>
    simp only [idxOf?] at h
    by_cases hp : pat.isPrefixOf ([] : List Char) = true
    · rw [if_pos hp] at h
      cases h
      exact ⟨hp, by omega⟩
    · rw [if_neg hp] at h
      cases h
  | cons c rest ih =>
    simp only [idxOf?] at h
    by_cases hp : pat.isPrefixOf (c :: rest) = true
    · rw [if_pos hp] at h
      cases h
      exact ⟨hp, by omega⟩
    · rw [if_neg hp] at h
      rcases Option.map_eq_some'.mp h with ⟨n, hn, rfl⟩
      rcases ih n hn with ⟨h1, h2⟩
      refine ⟨by simpa using h1, ?_⟩
      intro j hj
      cases j with
      | zero =>
        rw [Bool.not_eq_true] at hp
        simpa using hp
      | succ m => simpa using h2 m (by omega)

theorem containsSub_occurs_iff (hay pat : List Char) :
    containsSub hay pat = true ↔ pat <:+: hay := by
  unfold containsSub
  rw [Option.isSome_iff_exists]
  constructor
  · rintro ⟨i, hi⟩
    have h2 := (idxOf?_eq_some pat hay i hi).1
    have hpre := ( List.isPrefixOf_iff_prefix).mp h2
    exact List.IsInfix.trans hpre.isInfix (List.drop_suffix i hay).isInfix
  · intro hinf
    induction hay with
    | nil =>
      have : pat = [] := by simpa using hinf
      subst this
      exact ⟨0, by simp [idxOf?, List.isPrefixOf]⟩
    | cons c rest ih =>
      by_cases hp : pat.isPrefixOf (c :: rest) = true
      · exact ⟨0, by simp [idxOf?, hp]⟩
      · rcases List.infix_cons_iff.mp hinf with hpre | hinf'
        · exact absurd (( List.isPrefixOf_iff_prefix).mpr hpre) (by simp [hp])
        · rcases ih hinf' with ⟨i, hi⟩
          refine ⟨i + 1, ?_⟩
          rw [Bool.not_eq_true] at hp
          simp [idxOf?, hp, hi]

theorem fetchRemote_did_fetch (c : Cache) (now : Nat) (r : RemoteResult)
    (p : List Char) : (fetchDocMarkdown.fetchRemote c now r p).2.2 = true := by
  unfold fetchDocMarkdown.fetchRemote
  cases r with
  | response s b =>
    dsimp only
    by_cases hs : statusOk s = true
    · rw [if_pos hs]
    · rw [if_neg hs]
  | networkError m => rfl

/-- C1 (Cache freshness): `fetchDocMarkdown` returns without a remote fetch
exactly when a cache entry exists for the path whose age `now - timestamp`
is strictly below `CACHE_TTL` (3600000 ms = 3600 s); in that case it returns
the entry's content and leaves the cache unchanged.  A stale entry (age at
least the TTL) behaves as absent: the call issues a remote fetch. -/
theorem fetchDocMarkdown_cache_freshness (c : Cache) (now : Nat)
    (r : RemoteResult) (p : List Char) :
    ((fetchDocMarkdown c now r p).2.2 = false ↔
      ∃ e, cacheGet c p = some e ∧ now - e.timestamp < CACHE_TTL) ∧
    (∀ e, cacheGet c p = some e → now - e.timestamp < CACHE_TTL →
      fetchDocMarkdown c now r p = (e.content, c, false)) := by
  constructor
  · cases hg : cacheGet c p with
    | none =>
      unfold fetchDocMarkdown
      rw [hg]
      dsimp only
      constructor
      · intro h
        rw [fetchRemote_did_fetch] at h
        cases h
      · rintro ⟨e, he, _⟩
        cases he
    | some e =>
      unfold fetchDocMarkdown
      rw [hg]
      dsimp only
      by_cases hfresh : now - e.timestamp < CACHE_TTL
      · rw [if_pos hfresh]
        exact ⟨fun _ => ⟨e, rfl, hfresh⟩, fun _ => rfl⟩
      · rw [if_neg hfresh]
        constructor
        · intro h
          rw [fetchRemote_did_fetch] at h
          cases h
        · rintro ⟨e', he', hfresh'⟩
          cases Option.some.inj he'
          exact absurd hfresh' hfresh
  · intro e he hfresh
    unfold fetchDocMarkdown
    rw [he]
    dsimp only
    rw [if_pos hfresh]

/-- Witness for C1: a concrete fresh cache hit. -/
theorem fetchDocMarkdown_cache_freshness_witness :
    fetchDocMarkdown [("/overview/quickstart".data, ⟨"# Quickstart".data, 1000⟩)]
      2000 (.networkError "boom".data) "/overview/quickstart".data
      = ("# Quickstart".data,
         [("/overview/quickstart".data, ⟨"# Quickstart".data, 1000⟩)], false) :=
  (fetchDocMarkdown_cache_freshness
      [("/overview/quickstart".data, ⟨"# Quickstart".data, 1000⟩)]
      2000 (.networkError "boom".data) "/overview/quickstart".data).2
    ⟨"# Quickstart".data, 1000⟩ (by decide) (by decide)

/-- When the cache has no fresh entry for the path, `fetchDocMarkdown`
proceeds to the remote fetch. -/
theorem fetchDocMarkdown_stale (c : Cache) (now : Nat) (p : List Char)
    (h : cacheFresh c now p = false) (r : RemoteResult) :
    fetchDocMarkdown c now r p = fetchDocMarkdown.fetchRemote c now r p := by
  unfold cacheFresh at h
  unfold fetchDocMarkdown
  cases hg : cacheGet c p with
  | none => rfl
  | some e =>
    rw [hg] at h
    dsimp only at h ⊢
    have hns : ¬ (now - e.timestamp < CACHE_TTL) := by
      intro hc
      rw [decide_eq_true hc] at h
      cases h
    rw [if_neg hns]

/-- C2 (Fetcher error handling): whenever no fresh cache entry exists (so a
remote fetch is attempted) and the fetch fails — non-2xx status or network
failure — `fetchDocMarkdown` returns the synthesized placeholder that embeds
the path and the error message, and leaves the cache unchanged, so a later
call for the path fetches again.  (The model is a total function: the
operation never fails outward.) -/
theorem fetchDocMarkdown_error_placeholder (c : Cache) (now : Nat)
    (p : List Char) (h : cacheFresh c now p = false) :
    (∀ s b, statusOk s = false →
      fetchDocMarkdown c now (.response s b) p =
        (placeholderText p (httpErrMsg s), c, true)) ∧
    (∀ m, fetchDocMarkdown c now (.networkError m) p =
        (placeholderText p m, c, true)) ∧
    (∀ m, p <:+: placeholderText p m ∧ m <:+: placeholderText p m) := by
  have hbranch : ∀ r, fetchDocMarkdown c now r p =
      fetchDocMarkdown.fetchRemote c now r p := fetchDocMarkdown_stale c now p h
  refine ⟨?_, ?_, ?_⟩
  · intro s b hs
    rw [hbranch]
    unfold fetchDocMarkdown.fetchRemote
    dsimp only
    rw [if_neg (by rw [hs]; exact Bool.false_ne_true)]
  · intro m
    rw [hbranch]
    rfl
  · intro m
    constructor
    · exact ⟨"Documentation content not available for path: ".data,
        ".md\nError: ".data ++ m, by simp [placeholderText]⟩
    · exact ⟨"Documentation content not available for path: ".data ++ p ++
        ".md\nError: ".data, [], by simp [placeholderText]⟩

/-- Witness for C2: a concrete failed fetch (HTTP 404) on an empty cache. -/
theorem fetchDocMarkdown_error_placeholder_witness :
    fetchDocMarkdown [] 5 (.response 404 "nope".data) "/overview/playground".data
      = (placeholderText "/overview/playground".data (httpErrMsg 404), [], true) :=
  (fetchDocMarkdown_error_placeholder [] 5 "/overview/playground".data
    (by decide)).1 404 "nope".data (by decide)

theorem dedupFirstAux_mem (seen xs : List (List Char)) (t : List Char) :
    t ∈ dedupFirstAux seen xs ↔ t ∈ xs ∧ t ∉ seen := by
  induction xs generalizing seen with
  | nil => simp [dedupFirstAux]
  | cons x xs ih =>
    unfold dedupFirstAux
    by_cases hx : x ∈ seen
    · rw [if_pos hx, ih]
      constructor
      · rintro ⟨h1, h2⟩
        exact ⟨List.mem_cons_of_mem _ h1, h2⟩
      · rintro ⟨h1, h2⟩
        rcases List.mem_cons.mp h1 with rfl | h1
        · exact absurd hx h2
        · exact ⟨h1, h2⟩
    · rw [if_neg hx]
      simp only [List.mem_cons, ih, List.mem_cons]
      constructor
      · rintro (rfl | ⟨h1, h2⟩)
        · exact ⟨Or.inl rfl, hx⟩
        · exact ⟨Or.inr h1, fun hs => h2 (Or.inr hs)⟩
      · rintro ⟨rfl | h1, h2⟩
        · exact Or.inl rfl
        · by_cases he : t = x
          · exact Or.inl he
          · exact Or.inr ⟨h1, fun hs => hs.elim he h2⟩

theorem dedupFirstAux_nodup (seen xs : List (List Char)) :
    (dedupFirstAux seen xs).Nodup := by
  induction xs generalizing seen with
  | nil => simp [dedupFirstAux]
  | cons x xs ih =>
    unfold dedupFirstAux
    by_cases hx : x ∈ seen
    · rw [if_pos hx]
      exact ih seen
    · rw [if_neg hx]
      refine List.Nodup.cons ?_ (ih (x :: seen))
      intro hmem
      exact ((dedupFirstAux_mem (x :: seen) xs x).mp hmem).2 (List.mem_cons_self x seen)

theorem dedupFirstAux_sublist (seen xs : List (List Char)) :
    (dedupFirstAux seen xs).Sublist xs := by
  induction xs generalizing seen with
  | nil => simp [dedupFirstAux]
  | cons x xs ih =>
    unfold dedupFirstAux
    by_cases hx : x ∈ seen
    · rw [if_pos hx]
      exact (ih seen).cons x
    · rw [if_neg hx]
      exact (ih (x :: seen)).cons₂ x

/-- C7 (Problem-to-topic routing): `solve-problem` consults the union of the
topics of all categories with a keyword contained (case-insensitively) in
the problem text, without duplicates and preserving first-seen order (the
consulted list is a duplicate-free sublist of the concatenation of the
matching categories' topic lists, containing exactly its members); when no
category matches it consults exactly `error-handling`, `api-reference`,
`quickstart`.  Concretely, "I got a 401 unauthorized error" matches the
Authentication category and the consulted topics include `api-keys`. -/
theorem solveProblem_routing (problem : List Char) :
    ((matchingCategories problem ≠ [] →
        ((consultedTopics problem).Nodup ∧
         (consultedTopics problem).Sublist
           ((matchingCategories problem).flatMap (·.topics)) ∧
         ∀ t, t ∈ consultedTopics problem ↔
           ∃ cat ∈ matchingCategories problem, t ∈ cat.topics)) ∧
     (matchingCategories problem = [] →
        consultedTopics problem = defaultConsultTopics)) ∧
    ((∃ cat ∈ matchingCategories "I got a 401 unauthorized error".data,
        cat.category = "Authentication".data) ∧
     "api-keys".data ∈ consultedTopics "I got a 401 unauthorized error".data) := by
  constructor
  · constructor
    · intro hne
      unfold consultedTopics
      rw [if_neg hne]
      refine ⟨dedupFirstAux_nodup _ _, dedupFirstAux_sublist _ _, ?_⟩
      intro t
      rw [dedupFirst, dedupFirstAux_mem]
      simp [List.mem_flatMap]
    · intro he
      unfold consultedTopics
      rw [if_pos he]
      decide
  · constructor
    · refine ⟨⟨"Authentication".data,
        ["api key".data, "auth".data, "authentication".data,
         "unauthorized".data, "401".data],
        ["api-keys".data, "error-handling".data]⟩, ?_, rfl⟩
      decide
    · decide

/-- Witness for C7: the general part applied at the concrete problem
"I got a 401 unauthorized error", whose matching-category list is nonempty. -/
theorem solveProblem_routing_witness :
    (consultedTopics "I got a 401 unauthorized error".data).Nodup ∧
    consultedTopics "I got a 401 unauthorized error".data
      = ["api-keys".data, "error-handling".data, "api-reference".data] :=
  ⟨((solveProblem_routing "I got a 401 unauthorized error".data).1.1
      (by decide)).1, by decide⟩

theorem searchOne_isSome (query content : List Char)
    (h : containsCI content query = true) : (searchOne query content).isSome := by
  unfold searchOne
  rw [if_pos h]
  rfl

theorem filterMap_map_sublist {α β γ : Type} (h : α → Option β) (g : β → γ)
    (g' : α → γ) (hg : ∀ a b, h a = some b → g b = g' a) (l : List α) :
    ((l.filterMap h).map g).Sublist (l.map g') := by
  induction l with
  | nil => simp
  | cons a l ih =>
    rw [List.filterMap_cons, List.map_cons]
    cases ha : h a with
    | none => exact ih.cons (g' a)
    | some b =>
      rw [List.map_cons, hg a b ha]
      exact ih.cons₂ (g' a)

/-- C3 (Search containment and ordering): any registered document whose
content contains the query case-insensitively contributes its topic to the
results; the result topics form a sublist of the registry's topic sequence
(hence are listed in registry order) and contain no duplicate (at most one
match per topic). -/
theorem searchDocumentation_containment_order (f : List Char → List Char)
    (q : List Char) :
    (∀ d ∈ docsToSearch, containsCI (f d.path) q = true →
        d.topic ∈ (searchResults f q).map SearchResult.topic) ∧
    ((searchResults f q).map SearchResult.topic).Sublist
      (docsToSearch.map DocEntry.topic) ∧
    ((searchResults f q).map SearchResult.topic).Nodup := by
  have hsub : ((searchResults f q).map SearchResult.topic).Sublist
      (docsToSearch.map DocEntry.topic) := by
    apply filterMap_map_sublist
    intro d r hd
    rcases Option.map_eq_some'.mp hd with ⟨b, _, rfl⟩
    rfl
  refine ⟨?_, hsub, hsub.nodup (by decide)⟩
  intro d hd hc
  rcases Option.isSome_iff_exists.mp (searchOne_isSome q (f d.path) hc)
    with ⟨b, hb⟩
  refine List.mem_map.mpr ⟨⟨d.title, d.topic, b.1, b.2⟩, ?_, rfl⟩
  refine List.mem_filterMap.mpr ⟨d, hd, ?_⟩
  rw [hb]
  rfl

/-- Witness for C3: a concrete fetch assignment where exactly the quickstart
document contains the query. -/
theorem searchDocumentation_containment_order_witness :
    "quickstart".data ∈
      (searchResults
        (fun p => if p = "/overview/quickstart".data
                  then "# Intro\nUse Payman wallets here.".data else [])
        "Wallet".data).map SearchResult.topic :=
  (searchDocumentation_containment_order
      (fun p => if p = "/overview/quickstart".data
                then "# Intro\nUse Payman wallets here.".data else [])
      "Wallet".data).1
    ⟨"quickstart".data, "/overview/quickstart".data, "Quickstart Guide".data⟩
    (by decide) (by decide)

/-- C4 (Excerpt windowing): when the first case-insensitive occurrence of the
query in the selected section body is at index `i`, the excerpt is the
substring from `max 0 (i - 150)` to `min L (i + queryLength + 150)` with
newline runs collapsed to single spaces, prefixed with `"..."` exactly when
the window was clipped at the start (`150 < i`) and suffixed with `"..."`
exactly when it was clipped at the end (`i + queryLength + 150 < L`). -/
theorem searchDocumentation_excerpt_window (q body : List Char) (i : Nat)
    (h : idxOf? (lower q) (lower body) = some i) :
    mkExcerpt q body =
      (if 150 < i then "...".data else []) ++
      collapseNewlines ((body.drop (max 0 (i - 150))).take
        (min body.length (i + q.length + 150) - max 0 (i - 150))) ++
      (if i + q.length + 150 < body.length then "...".data else []) := by
  unfold mkExcerpt
  rw [h]
  have hlen : (lower q).length = q.length := by simp [lower]
  have hmax : max 0 (i - 150) = i - 150 := by omega
  have h150 : (0 < i - 150) = (150 < i) := by
    apply propext
    omega
  have hend : (min body.length (i + q.length + 150) < body.length)
      = (i + q.length + 150 < body.length) := by
    apply propext
    omega
  simp only [hlen, hmax, h150, hend]

/-- Witness for C4: the query "Pay" occurs first at index 3 of the body
"to pay\nnow"; the window covers the whole body and is not clipped. -/
theorem searchDocumentation_excerpt_window_witness :
    mkExcerpt "Pay".data "to pay\nnow".data = "to pay now".data := by
  rw [searchDocumentation_excerpt_window "Pay".data "to pay\nnow".data 3
    (by decide)]
  decide

/-- Counterexample to C5 as stated: two `get-documentation` calls for the
topic `quickstart`, one millisecond apart (well within one TTL window), on
an initially empty cache.  The first call's remote fetch fails with a
network error, so nothing is cached; the second call's fetch succeeds with
body "hello".  The two returned texts differ and the second call did issue
a remote fetch — so within-TTL calls are not unconditionally idempotent. -/
theorem getDocumentation_idempotence_cex :
    getDocumentation [] 0 (.networkError "boom".data) "quickstart".data
      = some (placeholderText "/overview/quickstart".data "boom".data ++
          relatedTopicsText ((metaOfTopic "quickstart".data).getD ⟨[], []⟩),
          [], true) ∧
    getDocumentation [] 1 (.response 200 "hello".data) "quickstart".data
      = some ("hello".data ++
          relatedTopicsText ((metaOfTopic "quickstart".data).getD ⟨[], []⟩),
          [("/overview/quickstart".data, ⟨"hello".data, 1⟩)], true) ∧
    placeholderText "/overview/quickstart".data "boom".data ++
        relatedTopicsText ((metaOfTopic "quickstart".data).getD ⟨[], []⟩)
      ≠ "hello".data ++
        relatedTopicsText ((metaOfTopic "quickstart".data).getD ⟨[], []⟩) := by
  refine ⟨by decide, by decide, by decide⟩

/-- C5 as amended (Idempotence of get-documentation after a successful
fetch): for every valid topic, if the first call's remote fetch actually
happens (no fresh cache entry) and succeeds, then a second call made within
the TTL window of that fetch returns byte-identical text, served from the
cache without issuing a new remote fetch, whatever its remote would
answer. -/
theorem getDocumentation_idempotent_after_success
    (c : Cache) (t₁ t₂ s : Nat) (b : List Char) (r₂ : RemoteResult)
    (topic path : List Char) (m : TopicMeta)
    (hpath : pathOfTopic topic = some path)
    (hmeta : metaOfTopic topic = some m)
    (hmiss : cacheFresh c t₁ path = false)
    (hok : statusOk s = true) (httl : t₂ - t₁ < CACHE_TTL) :
    ∃ text c₁,
      getDocumentation c t₁ (.response s b) topic = some (text, c₁, true) ∧
      getDocumentation c₁ t₂ r₂ topic = some (text, c₁, false) := by
  have hfirst : fetchDocMarkdown c t₁ (.response s b) path
      = (b, cacheSet c path ⟨b, t₁⟩, true) := by
    rw [fetchDocMarkdown_stale c t₁ path hmiss]
    unfold fetchDocMarkdown.fetchRemote
    dsimp only
    rw [if_pos hok]
  have hget : cacheGet (cacheSet c path ⟨b, t₁⟩) path
      = some ⟨b, t₁⟩ := by
    unfold cacheGet cacheSet
    rw [List.find?_cons_of_pos _ (by simp)]
    rfl
  have hsecond : fetchDocMarkdown (cacheSet c path ⟨b, t₁⟩) t₂ r₂ path
      = (b, cacheSet c path ⟨b, t₁⟩, false) := by
    unfold fetchDocMarkdown
    rw [hget]
    dsimp only
    rw [if_pos httl]
  refine ⟨b ++ relatedTopicsText m, cacheSet c path ⟨b, t₁⟩, ?_, ?_⟩
  · unfold getDocumentation
    rw [hpath, hmeta]
    dsimp only
    rw [hfirst]
  · unfold getDocumentation
    rw [hpath, hmeta]
    dsimp only
    rw [hsecond]

/-- Witness for amended C5: topic `playground`, a successful fetch at time 0
followed by a cache-served call at time 10. -/
theorem getDocumentation_idempotent_after_success_witness :
    ∃ text c₁,
      getDocumentation [] 0 (.response 200 "# PG".data) "playground".data
        = some (text, c₁, true) ∧
      getDocumentation c₁ 10 (.networkError "down".data) "playground".data
        = some (text, c₁, false) :=
  getDocumentation_idempotent_after_success [] 0 10 200 "# PG".data
    (.networkError "down".data) "playground".data "/overview/playground".data
    ⟨"API Playground".data, ["api-reference".data, "api-keys".data]⟩
    (by decide) (by decide) (by decide) (by decide) (by decide)

/-- C6 (Code-example filtering): a trimmed code block is kept exactly when
it was extracted as a block tagged for the requested language and either
contains the feature itself (case-insensitively) or the 300 characters of
raw document text before its first occurrence contain the feature.
Concretely, for a document with one `python` and one `javascript` block and
a feature ("balance") matching the python block's content, the
`language = python` call returns exactly the python block and omits the
javascript block. -/
theorem getCodeExamples_filter :
    (∀ feature language content code,
      code ∈ relevantBlocks feature language content ↔
        (code ∈ (extractBlocks (tagsFor language) content).map trimWs ∧
         (containsCI code feature = true ∨
          containsCI (lookbehind content code) feature = true))) ∧
    getCodeExamples
        (fun p => if p = "/sdks/check-balances".data then c6Doc else [])
        "balance".data .python
      = [⟨"check-balances".data, "Check Balances".data,
          ["client.get_balance()".data]⟩] := by
  constructor
  · intro feature language content code
    unfold relevantBlocks
    rw [List.mem_filter]
    unfold blockRelevant
    rw [Bool.or_eq_true]
  · decide

/-- Witness for C6: the general characterization applied to the concrete
document — the python block is a member of the relevant blocks. -/
theorem getCodeExamples_filter_witness :
    "client.get_balance()".data ∈
      relevantBlocks "balance".data .python c6Doc :=
  (getCodeExamples_filter.1 "balance".data .python c6Doc
      "client.get_balance()".data).mpr
    ⟨by decide, Or.inl (by decide)⟩

theorem headingIdxAux_spec (ls : List (List Char)) (k : Nat) :
    headingIdxAux ls k ≤ k ∧
    (startsWithHash (ls.getD (headingIdxAux ls k) []) = true ∨
      headingIdxAux ls k = 0) ∧
    ∀ j, headingIdxAux ls k < j → j ≤ k →
      startsWithHash (ls.getD j []) = false := by
  induction k with
  | zero => exact ⟨Nat.le_refl 0, Or.inr rfl, by omega⟩
  | succ k ih =>
    unfold headingIdxAux
    by_cases h : startsWithHash (ls.getD (k + 1) []) = true
    · rw [if_pos h]
      exact ⟨Nat.le_refl _, Or.inl h, by omega⟩
    · rw [if_neg h]
      rcases ih with ⟨h1, h2, h3⟩
      refine ⟨by omega, h2, ?_⟩
      intro j hj1 hj2
      by_cases hjk : j ≤ k
      · exact h3 j hj1 hjk
      · have hj : j = k + 1 := by omega
        subst hj
        rw [Bool.not_eq_true] at h
        exact h

theorem findIdx?_go_spec {α : Type} (p : α → Bool) (d : α) (l : List α)
    (s i : Nat) (h : List.findIdx? p l s = some i) :
    s ≤ i ∧ i - s < l.length ∧ p (l.getD (i - s) d) = true := by
  induction l generalizing s with
  | nil => cases h
  | cons a as ih =>
    rw [List.findIdx?] at h
    by_cases hp : p a = true
    · rw [if_pos hp] at h
      cases h
      simpa using hp
    · rw [if_neg hp] at h
      rcases ih (s + 1) h with ⟨h1, h2, h3⟩
      refine ⟨by omega, by simpa using (by omega : i - s < as.length + 1), ?_⟩
      have hs : i - s = (i - (s + 1)) + 1 := by omega
      rw [hs]
      simpa using h3

theorem findIdx?_spec {α : Type} (p : α → Bool) (d : α) (l : List α)
    (i : Nat) (h : l.findIdx? p = some i) :
    i < l.length ∧ p (l.getD i d) = true := by
  have := findIdx?_go_spec p d l 0 i h
  simpa using this.2

theorem mem_insertDesc (x a : SdkHelpResult) (l : List SdkHelpResult) :
    a ∈ insertDesc x l ↔ a = x ∨ a ∈ l := by
  induction l with
  | nil => simp [insertDesc]
  | cons y ys ih =>
    unfold insertDesc
    by_cases h : x.relevance < y.relevance
    · rw [if_pos h]
      simp only [List.mem_cons, ih, List.mem_cons]
      tauto
    · rw [if_neg h]
      simp only [List.mem_cons]

theorem mem_sortDesc (a : SdkHelpResult) (l : List SdkHelpResult) :
    a ∈ sortDesc l ↔ a ∈ l := by
  induction l with
  | nil => simp [sortDesc]
  | cons x xs ih =>
    unfold sortDesc
    rw [mem_insertDesc, ih, List.mem_cons]

theorem insertDesc_sorted (x : SdkHelpResult) (l : List SdkHelpResult)
    (h : List.Pairwise (fun a b => b.relevance ≤ a.relevance) l) :
    List.Pairwise (fun a b => b.relevance ≤ a.relevance) (insertDesc x l) := by
  induction l with
  | nil => simp [insertDesc]
  | cons y ys ih =>
    rcases List.pairwise_cons.mp h with ⟨hy, hys⟩
    unfold insertDesc
    by_cases hlt : x.relevance < y.relevance
    · rw [if_pos hlt]
      refine List.pairwise_cons.mpr ⟨?_, ih hys⟩
      intro b hb
      rcases (mem_insertDesc x b ys).mp hb with rfl | hb'
      · omega
      · exact hy b hb'
    · rw [if_neg hlt]
      refine List.pairwise_cons.mpr ⟨?_, h⟩
      intro b hb
      rcases List.mem_cons.mp hb with rfl | hb'
      · omega
      · have := hy b hb'
        omega

theorem sortDesc_sorted (l : List SdkHelpResult) :
    List.Pairwise (fun a b => b.relevance ≤ a.relevance) (sortDesc l) := by
  induction l with
  | nil => simp [sortDesc]
  | cons x xs ih => exact insertDesc_sorted x (sortDesc xs) ih

theorem filter_insertDesc (x : SdkHelpResult) (l : List SdkHelpResult)
    (s : Nat) :
    (insertDesc x l).filter (fun r => r.relevance == s)
      = if x.relevance == s
        then x :: l.filter (fun r => r.relevance == s)
        else l.filter (fun r => r.relevance == s) := by
  induction l with
  | nil =>
    by_cases hx : x.relevance = s
    · simp [insertDesc, List.filter, beq_iff_eq, hx]
    · have hb : (x.relevance == s) = false := by
        simpa using hx
      simp [insertDesc, List.filter, hb]
  | cons y ys ih =>
    unfold insertDesc
    by_cases hlt : x.relevance < y.relevance
    · rw [if_pos hlt]
      by_cases hy : y.relevance = s
      · have hx : ¬ (x.relevance = s) := by omega
        simp [List.filter_cons, hy, hx, ih]
      · simp [List.filter_cons, hy, ih]
    · rw [if_neg hlt]
      by_cases hx : x.relevance = s
      · simp [List.filter_cons, hx]
      · simp [List.filter_cons, hx]

theorem filter_sortDesc (l : List SdkHelpResult) (s : Nat) :
    (sortDesc l).filter (fun r => r.relevance == s)
      = l.filter (fun r => r.relevance == s) := by
  induction l with
  | nil => rfl
  | cons x xs ih =>
    unfold sortDesc
    rw [filter_insertDesc, ih]
    by_cases hx : x.relevance = s
    · simp [List.filter_cons, hx]
    · simp [List.filter_cons, hx]

/-- Every line of a list is an infix of their newline join. -/
theorem joinNl_infix_of_mem (l : List Char) (ls : List (List Char)) (h : l ∈ ls) :
    l <:+: joinNl ls := by
  induction ls with
  | nil => cases h
  | cons x xs ih =>
    rcases List.mem_cons.mp h with rfl | h'
    · cases xs with
      | nil => exact ⟨[], [], by simp [joinNl]⟩
      | cons y ys => exact ⟨[], '\n' :: joinNl (y :: ys), by simp [joinNl]⟩
    · cases xs with
      | nil => cases h'
      | cons y ys =>
        refine (ih h').trans ⟨x ++ ['\n'], [], ?_⟩
        simp [joinNl]

/-- Unfolding of a successful `sdkHelpOne`. -/
theorem sdkHelpOne_eq_some (sdk : Sdk) (feature topic content : List Char)
    (r : SdkHelpResult) (h : sdkHelpOne sdk feature topic content = some r) :
    sdkRelevant sdk feature content = true ∧
    ∃ fi, featureLineIdx feature content = some fi ∧
      r = ⟨topic,
        (splitLines content).getD (headingIdxAux (splitLines content) fi) [],
        sdkExcerpt content fi,
        (if containsSub (lower content) (sdkName sdk) then 2 else 1) +
          (if containsCI (sdkExcerpt content fi) feature then 3 else 0)⟩ := by
  unfold sdkHelpOne at h
  by_cases hrel : sdkRelevant sdk feature content = true
  · rw [if_pos hrel] at h
    refine ⟨hrel, ?_⟩
    cases hfi : featureLineIdx feature content with
    | none =>
      rw [hfi] at h
      cases h
    | some fi =>
      rw [hfi] at h
      exact ⟨fi, rfl, (Option.some.inj h).symm⟩
  · rw [if_neg hrel] at h
    cases h

/-- C8 (get-sdk-help excerpt extraction): for a topic that passes the
relevance gate, the result's heading is the line at the heading index — the
nearest line at or above the feature line beginning with `#`, or line 0
when none exists — and its excerpt is the lines from that heading through
`featureIndex + 20` (exclusive) joined with newlines; a topic whose content
has no line containing the feature string yields no result. -/
theorem getSdkHelp_excerpt (sdk : Sdk) (feature topic content : List Char) :
    (featureLineIdx feature content = none →
      sdkHelpOne sdk feature topic content = none) ∧
    (∀ fi, sdkRelevant sdk feature content = true →
      featureLineIdx feature content = some fi →
      ∃ r, sdkHelpOne sdk feature topic content = some r ∧
        r.heading = (splitLines content).getD
          (headingIdxAux (splitLines content) fi) [] ∧
        r.content = joinNl (((splitLines content).drop
            (headingIdxAux (splitLines content) fi)).take
          (fi + 20 - headingIdxAux (splitLines content) fi)) ∧
        headingIdxAux (splitLines content) fi ≤ fi ∧
        (startsWithHash ((splitLines content).getD
            (headingIdxAux (splitLines content) fi) []) = true ∨
          headingIdxAux (splitLines content) fi = 0) ∧
        (∀ j, headingIdxAux (splitLines content) fi < j → j ≤ fi →
          startsWithHash ((splitLines content).getD j []) = false)) := by
  constructor
  · intro hnone
    unfold sdkHelpOne
    rw [hnone]
    by_cases hrel : sdkRelevant sdk feature content = true
    · rw [if_pos hrel]
    · rw [if_neg hrel]
  · intro fi hrel hfi
    refine ⟨⟨topic,
      (splitLines content).getD (headingIdxAux (splitLines content) fi) [],
      sdkExcerpt content fi,
      (if containsSub (lower content) (sdkName sdk) then 2 else 1) +
        (if containsCI (sdkExcerpt content fi) feature then 3 else 0)⟩,
      ?_, rfl, rfl, (headingIdxAux_spec (splitLines content) fi).1,
      (headingIdxAux_spec (splitLines content) fi).2.1,
      (headingIdxAux_spec (splitLines content) fi).2.2⟩
    unfold sdkHelpOne
    rw [if_pos hrel, hfi]

/-- Witness for C8: `Payman` is found on line 2 of `c8Doc`; the upward walk
reaches line 0, whose text is `# Setup`. -/
theorem getSdkHelp_excerpt_witness :
    ∃ r, sdkHelpOne .nodejs "Payman".data "setup-and-installation".data c8Doc
        = some r ∧ r.heading = "# Setup".data := by
  rcases (getSdkHelp_excerpt .nodejs "Payman".data
      "setup-and-installation".data c8Doc).2 2 (by decide) (by decide)
    with ⟨r, hr, hh, _⟩
  refine ⟨r, hr, ?_⟩
  rw [hh]
  decide

/-- C9 (get-sdk-help scoring and ordering): every returned result's score is
the baseline (2 when the full document text contains the sdk name, 1
otherwise) plus the bonus (3 when the excerpt contains the feature string,
0 otherwise); the rendered list is sorted in non-increasing score order;
and for every score value the results with that score appear exactly as in
the unsorted topic-scan-order list (stability: ties preserve scan
order). -/
theorem getSdkHelp_scoring_order (f : List Char → List Char) (sdk : Sdk)
    (feature : List Char) :
    (∀ r ∈ sdkHelpResults f sdk feature,
      r.relevance =
        (if containsSub (lower (f ((pathOfTopic r.topic).getD [])))
            (sdkName sdk) then 2 else 1) +
        (if containsCI r.content feature then 3 else 0)) ∧
    List.Pairwise (fun a b => b.relevance ≤ a.relevance)
      (sdkHelpResults f sdk feature) ∧
    (∀ s : Nat, (sdkHelpResults f sdk feature).filter
        (fun r => r.relevance == s)
      = (sdkHelpRaw f sdk feature).filter (fun r => r.relevance == s)) := by
  refine ⟨?_, sortDesc_sorted _, fun s => filter_sortDesc _ s⟩
  intro r hr
  have hr' : r ∈ sdkHelpRaw f sdk feature := (mem_sortDesc r _).mp hr
  rcases List.mem_filterMap.mp hr' with ⟨t, ht, hsome⟩
  rcases sdkHelpOne_eq_some sdk feature t _ r hsome with ⟨_, fi, hfi, rfl⟩
  rfl

/-- Witness for C9: the single result of the `c9Fetch` scenario satisfies
the score formula. -/
theorem getSdkHelp_scoring_order_witness :
    (⟨"setup-and-installation".data, "# PyGuide".data, c9Excerpt, 5⟩ :
        SdkHelpResult).relevance =
      (if containsSub (lower (c9Fetch
          ((pathOfTopic "setup-and-installation".data).getD [])))
          (sdkName .python) then 2 else 1) +
      (if containsCI c9Excerpt "Payman".data then 3 else 0) :=
  (getSdkHelp_scoring_order c9Fetch .python "Payman".data).1
    ⟨"setup-and-installation".data, "# PyGuide".data, c9Excerpt, 5⟩
    (by decide)

/-- C10 (implicit invariant): every result actually returned by
`get-sdk-help` has score 4 or 5: the excerpt spans from the heading line
through past the feature line, hence contains the feature line and with it
the feature string, so the +3 bonus always applies on top of the baseline
1 or 2. -/
theorem getSdkHelp_score_four_or_five (f : List Char → List Char) (sdk : Sdk)
    (feature : List Char) :
    ∀ r ∈ sdkHelpResults f sdk feature,
      r.relevance = 4 ∨ r.relevance = 5 := by
  intro r hr
  have hr' : r ∈ sdkHelpRaw f sdk feature := (mem_sortDesc r _).mp hr
  rcases List.mem_filterMap.mp hr' with ⟨t, ht, hsome⟩
  rcases sdkHelpOne_eq_some sdk feature t _ r hsome with ⟨_, fi, hfi, rfl⟩
  have hspec := findIdx?_spec (fun line => containsCI line feature) []
    (splitLines (f ((pathOfTopic t).getD []))) fi hfi
  have hhi := (headingIdxAux_spec
    (splitLines (f ((pathOfTopic t).getD []))) fi).1
  have hline : ((splitLines (f ((pathOfTopic t).getD []))).getD fi []) ∈
      ((splitLines (f ((pathOfTopic t).getD []))).drop
        (headingIdxAux (splitLines (f ((pathOfTopic t).getD []))) fi)).take
      (fi + 20 - headingIdxAux (splitLines (f ((pathOfTopic t).getD []))) fi) := by
    apply List.getElem?_mem
      (n := fi - headingIdxAux (splitLines (f ((pathOfTopic t).getD []))) fi)
    rw [List.getElem?_take, if_pos (by omega), List.getElem?_drop,
      List.getD_eq_getElem?_getD]
    have harith : headingIdxAux (splitLines (f ((pathOfTopic t).getD []))) fi +
        (fi - headingIdxAux (splitLines (f ((pathOfTopic t).getD []))) fi)
        = fi := by omega
    rw [harith, List.getElem?_eq_getElem hspec.1]
    rfl
  have hfeat : (lower feature) <:+:
      lower ((splitLines (f ((pathOfTopic t).getD []))).getD fi []) :=
    (containsSub_occurs_iff _ _).mp hspec.2
  have hjoin := joinNl_infix_of_mem _ _ hline
  have hexc : containsCI (sdkExcerpt (f ((pathOfTopic t).getD [])) fi)
      feature = true := by
    unfold containsCI
    rw [containsSub_occurs_iff]
    exact hfeat.trans (List.IsInfix.map Char.toLower hjoin)
  dsimp only
  rw [if_pos hexc]
  by_cases hbase : containsSub (lower (f ((pathOfTopic t).getD [])))
      (sdkName sdk) = true
  · rw [if_pos hbase]
    right
    rfl
  · rw [if_neg hbase]
    left
    rfl

/-- Witness for C10: the single result of the `c9Fetch` scenario has score
4 or 5. -/
theorem getSdkHelp_score_four_or_five_witness :
    (⟨"setup-and-installation".data, "# PyGuide".data, c9Excerpt, 5⟩ :
        SdkHelpResult).relevance = 4 ∨
    (⟨"setup-and-installation".data, "# PyGuide".data, c9Excerpt, 5⟩ :
        SdkHelpResult).relevance = 5 :=
  getSdkHelp_score_four_or_five c9Fetch .python "Payman".data
    ⟨"setup-and-installation".data, "# PyGuide".data, c9Excerpt, 5⟩
    (by decide)
